import Mathlib

set_option autoImplicit false

/-!
Verification development for the EchoTube delivery core.

The JavaScript source is shallowly embedded:
* a JS `Set` of strings is an insertion-ordered duplicate-free `List String`
  (`Set.add` appends only when the element is absent);
* a JS `Map`/plain object with string keys is an insertion-ordered association
  list `List (String × Int)` (`Map.set` on an existing key updates the value in
  place, otherwise appends);
* timestamps (ISO-8601 strings / `Date` values in the source) are modelled by
  their integer millisecond values (`Int`), on which `Date` comparison and
  `toISOString` round-tripping are faithful;
* asynchronous effects (fetch, sleep) are replaced by explicit oracles and by
  returning the slept delays in a trace.
-/

namespace EchoTube

/-- JS `Set.prototype.add`: append the element unless it is already present. -/
def setAdd (s : List String) (x : String) : List String :=
  if x ∈ s then s else s ++ [x]

/-- JS `new Set(array)`: insert every element in order, keeping first occurrences. -/
def jsSetFromArray (l : List String) : List String :=
  l.foldl setAdd []

/-- JS `Map.prototype.get` / object property read on string keys. -/
def mapGet (m : List (String × Int)) (k : String) : Option Int :=
  match m with
  | [] => none
  | (k', v) :: rest => if k' = k then some v else mapGet rest k

/-- JS `Map.prototype.set` / object property assignment: update the value in
place when the key exists, otherwise append the pair. -/
def mapSet (m : List (String × Int)) (k : String) (v : Int) : List (String × Int) :=
  if (mapGet m k).isSome then m.map (fun p => if p.1 = k then (k, v) else p)
  else m ++ [(k, v)]

/-- JS `new Map(entries)` / `Object.fromEntries(entries)`: later entries with
the same key overwrite earlier ones. -/
def mapFromEntries (l : List (String × Int)) : List (String × Int) :=
  l.foldl (fun m kv => mapSet m kv.1 kv.2) []

/-- A feed item as produced by the collaborator feed layer (`src/youtube.js`):
identity, source reference and publish timestamp; the remaining display fields
play no role in the cache claims. -/
structure Video where
  id : String
  sourceType : String
  sourceId : String
  published : Int
deriving DecidableEq, Repr

/-- The mutable state of `VideoCache` (`src/cache.js`). -/
structure CacheState where
  cacheFile : Option String
  seenVideoIds : List String
  latestVideoTimestamps : List (String × Int)
  lastSaveTime : Int
deriving DecidableEq, Repr

namespace VideoCache

/-- Model of `VideoCache.hasBeenSeen`. -/
def hasBeenSeen (c : CacheState) (videoId : String) : Bool :=
  c.seenVideoIds.contains videoId

/-- Model of `VideoCache.markAsSeen`. -/
def markAsSeen (c : CacheState) (videoId : String) : CacheState :=
  { c with seenVideoIds := setAdd c.seenVideoIds videoId }

/-- Model of `VideoCache.updateLatestTimestamp`: replace a source's stored timestamp
only when there is none yet or the new one is strictly newer. -/
def updateLatestTimestamp (c : CacheState) (sourceId : String) (timestamp : Int) :
    CacheState :=
  match mapGet c.latestVideoTimestamps sourceId with
  | none =>
    { c with latestVideoTimestamps := mapSet c.latestVideoTimestamps sourceId timestamp }
  | some currentLatest =>
    if timestamp > currentLatest then
      { c with latestVideoTimestamps := mapSet c.latestVideoTimestamps sourceId timestamp }
    else c

/-- Model of `VideoCache.filterNewVideos`. -/
def filterNewVideos (c : CacheState) (videos : List Video) : List Video :=
  videos.filter (fun video => !hasBeenSeen c video.id)

/-- The `` `${video.sourceType}:${video.sourceId}` `` key used in `processVideos`. -/
def sourceKey (v : Video) : String :=
  v.sourceType ++ ":" ++ v.sourceId

/-- First phase of `VideoCache.processVideos`: the per-source maximum publish
timestamp of the incoming batch (`sourceTimestamps` map, insertion-ordered). -/
def computeSourceTimestamps (videos : List Video) : List (String × Int) :=
  videos.foldl
    (fun m video =>
      match mapGet m (sourceKey video) with
      | none => mapSet m (sourceKey video) video.published
      | some currentLatest =>
        if video.published > currentLatest then mapSet m (sourceKey video) video.published
        else m)
    []

/-- Development-mode sampling in `VideoCache.processVideos`: keep the first new
video per source, in input order. -/
def devFilter (newVideos : List Video) : List Video :=
  (newVideos.foldl
    (fun (acc : List Video × List String) video =>
      if sourceKey video ∈ acc.2 then acc
      else (acc.1 ++ [video], acc.2 ++ [sourceKey video]))
    ([], [])).1

/-- First half of `VideoCache.processVideos`: apply `updateLatestTimestamp` to
every per-source maximum of the batch, in map insertion order. -/
def updateAllTimestamps (c : CacheState) (videos : List Video) : CacheState :=
  (computeSourceTimestamps videos).foldl (fun s kv => updateLatestTimestamp s kv.1 kv.2) c

/-- Second half of `VideoCache.processVideos`, after the timestamp update:
the three policies (initial production run, development, normal). -/
def processVideosPhase2 (c1 : CacheState) (videos : List Video) (isInitialRun : Bool)
    (mode : String) : CacheState × List Video :=
  if isInitialRun ∧ mode = "production" then
    (videos.foldl (fun s video => markAsSeen s video.id) c1, [])
  else if mode = "development" then
    ((filterNewVideos c1 videos).foldl (fun s video => markAsSeen s video.id) c1,
      devFilter (filterNewVideos c1 videos))
  else
    ((filterNewVideos c1 videos).foldl (fun s video => markAsSeen s video.id) c1,
      filterNewVideos c1 videos)

/-- Model of `VideoCache.processVideos`: returns the updated cache and the list of
videos to deliver. -/
def processVideos (c : CacheState) (videos : List Video) (isInitialRun : Bool)
    (mode : String) : CacheState × List Video :=
  processVideosPhase2 (updateAllTimestamps c videos) videos isInitialRun mode

/-- Model of `VideoCache.isInitialRun`: true iff no video id has been cached. -/
def isInitialRun (c : CacheState) : Bool :=
  c.seenVideoIds.length = 0

/-- Model of `VideoCache.save`: write-through is skipped in memory-only mode and,
unless `force` is set, throttled to once per 30 seconds.  The boolean result
records whether the state file was actually written. -/
def save (c : CacheState) (force : Bool) (now : Int) : CacheState × Bool :=
  match c.cacheFile with
  | none => (c, false)
  | some _ =>
    if ¬force ∧ now - c.lastSaveTime < 30000 then (c, false)
    else ({ c with lastSaveTime := now }, true)

/-- JS `Array.prototype.slice(-n)`: the last `n` elements for `n > 0`, but the
whole array for `n = 0` (since `-0` is `0`). -/
def sliceLast (l : List String) (n : Nat) : List String :=
  if n = 0 then l else l.drop (l.length - n)

/-- Model of `VideoCache.cleanup`: when the seen set exceeds `maxEntries`, sort
the ids (JS default sort: lexicographic) and keep only the largest
`maxEntries`. -/
def cleanup (c : CacheState) (maxEntries : Nat) : CacheState :=
  if c.seenVideoIds.length ≤ maxEntries then c
  else
    { c with seenVideoIds :=
        jsSetFromArray (sliceLast (c.seenVideoIds.mergeSort (fun a b => a ≤ b)) maxEntries) }

end VideoCache

/-- The on-disk shape written by `VideoCache.save` and read back by
`VideoCache.initialize` (the `lastUpdated` and `version` fields are ignored by
the loader and left out). -/
structure CacheFileData where
  seenVideoIds : List String
  latestVideoTimestamps : List (String × Int)
deriving DecidableEq, Repr

namespace VideoCache

/-- The serialization performed by `VideoCache.save`: `Array.from(seen)` and
`Object.fromEntries(latest)` (JSON text round-trips both faithfully). -/
def saveData (c : CacheState) : CacheFileData :=
  { seenVideoIds := c.seenVideoIds
    latestVideoTimestamps := mapFromEntries c.latestVideoTimestamps }

/-- The load path of `VideoCache.initialize` on a well-formed cache file:
`new Set(data.seenVideoIds)` and `new Map(Object.entries(data.latest))`.
`cacheFile` and `lastSaveTime` come from the constructor. -/
def loadData (d : CacheFileData) (cacheFile : Option String) (now : Int) : CacheState :=
  { cacheFile := cacheFile
    seenVideoIds := jsSetFromArray d.seenVideoIds
    latestVideoTimestamps := mapFromEntries d.latestVideoTimestamps
    lastSaveTime := now }

end VideoCache

namespace CycleProcessor

/-- Mode selection in `processVideos` of `src/index.js`. -/
def cycleMode (testMode developmentMode : Bool) : String :=
  if testMode then "test" else if developmentMode then "development" else "production"

/-- Tail of the cycle processor's `processVideos`: the early return when the
cache yields nothing new, else dispatch followed by `videoCache.save()`
(with the default `force = false`). -/
def processCyclePost (r : CacheState × List Video) (now : Int) :
    CacheState × List Video × Bool :=
  if r.2.isEmpty then (r.1, [], false)
  else ((VideoCache.save r.1 false now).1, r.2, (VideoCache.save r.1 false now).2)

/-- One `processVideos` call of the cycle processor (`src/index.js`): filter
through the cache, dispatch the survivors, then call `videoCache.save()`
(with the default `force = false`).  Returns the final cache state, the
delivery list and whether the state file was written. -/
def processCycle (c : CacheState) (videos : List Video) (testMode developmentMode : Bool)
    (now : Int) : CacheState × List Video × Bool :=
  if videos.isEmpty then (c, [], false)
  else
    processCyclePost
      (VideoCache.processVideos c videos (VideoCache.isInitialRun c)
        (cycleMode testMode developmentMode)) now

end CycleProcessor

/-! ## Discord delivery layer (`src/discord.js`) -/

namespace Discord

/-- Discord rate limiting: 5 requests per 2 seconds. -/
def RATE_LIMIT_REQUESTS : Nat := 5

def RATE_LIMIT_WINDOW_MS : Int := 2000

/-- Model of `DiscordWebhook._canMakeRequest`: drop timestamps outside the window, then
admit iff fewer than 5 remain.  Returns the pruned timestamp list and the
decision. -/
def canMakeRequest (requestTimestamps : List Int) (now : Int) : List Int × Bool :=
  ((requestTimestamps.filter (fun timestamp => now - timestamp < RATE_LIMIT_WINDOW_MS)),
    (requestTimestamps.filter
      (fun timestamp => now - timestamp < RATE_LIMIT_WINDOW_MS)).length < RATE_LIMIT_REQUESTS)

/-- Model of `DiscordWebhook._calculateDelay`: zero for an empty window, else the time
until the oldest recorded request leaves the window. -/
def calculateDelay (requestTimestamps : List Int) (now : Int) : Int :=
  match requestTimestamps with
  | [] => 0
  | oldestRequest :: _ =>
    let timeSinceOldest := now - oldestRequest
    if timeSinceOldest ≥ RATE_LIMIT_WINDOW_MS then 0
    else RATE_LIMIT_WINDOW_MS - timeSinceOldest

/-- The admit decision of `_processQueue`: prune via `_canMakeRequest`; wait
zero if it admits, else wait for `_calculateDelay` on the pruned window. -/
def admitDelay (requestTimestamps : List Int) (now : Int) : List Int × Int :=
  if (canMakeRequest requestTimestamps now).2 then
    ((canMakeRequest requestTimestamps now).1, 0)
  else
    ((canMakeRequest requestTimestamps now).1,
      calculateDelay (canMakeRequest requestTimestamps now).1 now)

/-- One `fetch` outcome as observed by `_sendWebhook`: either an HTTP response
(status plus optional `Retry-After` header, in seconds) or a thrown error
carrying its `name`. -/
inductive FetchOutcome where
  | response (status : Nat) (retryAfter : Option Nat)
  | err (name : String)
deriving DecidableEq, Repr

/-- Truth of `response.ok`: status in the 2xx range. -/
def isSuccess : FetchOutcome → Bool
  | .response status _ => 200 ≤ status ∧ status < 300
  | .err _ => false

/-- The trace of one `_sendWebhook` call: final result (success, or the error
surfaced to the caller), the backoff delays slept before each retry, and the
number of `fetch` attempts made. -/
structure SendTrace where
  result : Except String Unit
  delays : List Int
  attempts : Nat
deriving Repr

def maxRetries : Nat := 3

def baseDelay : Int := 1000

/-- The delay `_sendWebhook` sleeps before retry number `retryCount` when the
failed attempt was `o`: `Retry-After · 1000` for a 429 response carrying the
header, else `baseDelay · 2 ^ retryCount`. -/
def retryDelayFor (o : FetchOutcome) (retryCount : Nat) : Int :=
  match o with
  | .response 429 (some ra) => (ra : Int) * 1000
  | _ => baseDelay * 2 ^ retryCount

/-- Model of `DiscordWebhook._sendWebhook` with the `fetch` effect replaced by an
oracle giving the outcome of each attempt (attempt number `attempt`).
A 429 response retries with the server delay while `retryCount < maxRetries`;
any other non-2xx response throws an `Error`, which the catch block retries
with exponential backoff; a thrown error named `AbortError` is never retried;
exhausted retries rethrow to the caller. -/
def sendWebhook (oracle : Nat → FetchOutcome) (attempt retryCount : Nat) : SendTrace :=
  match h : oracle attempt with
  | .response status retryAfter =>
    if status = 429 then
      if retryCount < maxRetries then
        let delay := match retryAfter with
          | some ra => (ra : Int) * 1000
          | none => baseDelay * 2 ^ retryCount
        let t := sendWebhook oracle (attempt + 1) (retryCount + 1)
        { t with delays := delay :: t.delays, attempts := t.attempts + 1 }
      else
        { result := .error ("HTTP " ++ toString status), delays := [], attempts := 1 }
    else if ¬(200 ≤ status ∧ status < 300) then
      -- `throw new Error(...)` caught by the catch block of the same call
      if retryCount < maxRetries then
        let t := sendWebhook oracle (attempt + 1) (retryCount + 1)
        { t with delays := baseDelay * 2 ^ retryCount :: t.delays, attempts := t.attempts + 1 }
      else
        { result := .error ("HTTP " ++ toString status), delays := [], attempts := 1 }
    else
      { result := .ok (), delays := [], attempts := 1 }
  | .err name =>
    if retryCount < maxRetries ∧ name ≠ "AbortError" then
      let t := sendWebhook oracle (attempt + 1) (retryCount + 1)
      { t with delays := baseDelay * 2 ^ retryCount :: t.delays, attempts := t.attempts + 1 }
    else
      { result := .error name, delays := [], attempts := 1 }
termination_by maxRetries + 1 - retryCount

/-- One per-endpoint outcome aggregated by `MultiDiscordWebhook`. -/
structure WebhookResult where
  webhookIndex : Nat
  success : Bool
  error : Option String
deriving DecidableEq, Repr

/-- A settled JS promise. -/
inductive JsSettled (α : Type) where
  | fulfilled (value : α)
  | rejected (reason : Option String)

/-- The per-webhook async closure in `MultiDiscordWebhook.postVideoNotification`:
its try/catch converts the send outcome into a result object, so the promise
always fulfills. -/
def webhookTask (sendOutcome : Except String Unit) (index : Nat) : JsSettled WebhookResult :=
  .fulfilled (match sendOutcome with
    | .ok _ => { webhookIndex := index, success := true, error := none }
    | .error e => { webhookIndex := index, success := false, error := some e })

/-- One step of the `Promise.allSettled` post-processing loop: a fulfilled
promise pushes its value, a rejected one pushes a failure record built from
the loop index and the rejection reason. -/
def settleStep (acc : List WebhookResult × Nat) (r : JsSettled WebhookResult) :
    List WebhookResult × Nat :=
  match r with
  | .fulfilled v => (acc.1 ++ [v], acc.2 + 1)
  | .rejected reason =>
    (acc.1 ++ [{ webhookIndex := acc.2, success := false,
                 error := some (reason.getD "Unknown error") }], acc.2 + 1)

/-- Model of the `Promise.allSettled` post-processing loop. -/
def collectSettled (settled : List (JsSettled WebhookResult)) : List WebhookResult :=
  (settled.foldl settleStep ([], 0)).1

/-- JS `Array.prototype.map` with the element index, as used on
`this.webhooks`: one per-endpoint promise per configured endpoint. -/
def webhookPromises (sendOutcomes : List (Except String Unit)) (index : Nat) :
    List (JsSettled WebhookResult) :=
  match sendOutcomes with
  | [] => []
  | outcome :: rest => webhookTask outcome index :: webhookPromises rest (index + 1)

/-- Model of `MultiDiscordWebhook.postVideoNotification` for one video, parameterised by
each endpoint's underlying send outcome. -/
def multiPostVideoNotification (sendOutcomes : List (Except String Unit)) :
    List WebhookResult :=
  collectSettled (webhookPromises sendOutcomes 0)

/-- The per-endpoint result record the claim expects: failure is recorded in
the outcome as a success flag with error detail, never thrown. -/
def expectedResult (index : Nat) (outcome : Except String Unit) : WebhookResult :=
  match outcome with
  | .ok _ => { webhookIndex := index, success := true, error := none }
  | .error e => { webhookIndex := index, success := false, error := some e }

/-- The per-endpoint outcome list the claim expects, one entry per endpoint. -/
def expectedResults (sendOutcomes : List (Except String Unit)) (index : Nat) :
    List WebhookResult :=
  match sendOutcomes with
  | [] => []
  | outcome :: rest => expectedResult index outcome :: expectedResults rest (index + 1)

/-- Decode a send result: true exactly on success. -/
def resultOk : Except String Unit → Bool
  | .ok _ => true
  | .error _ => false

/-- The result `_sendWebhook` produces from one `fetch` outcome when no
further retry happens: a 2xx response resolves, anything else surfaces an
error to the caller. -/
def stopResult (o : FetchOutcome) : Except String Unit :=
  match o with
  | .response status _ =>
    if 200 ≤ status ∧ status < 300 then .ok () else .error ("HTTP " ++ toString status)
  | .err name => .error name

/-- The retry contract of `_sendWebhook` starting from attempt `a` with retry
counter `r`, with at most `fuel` retries remaining: the attempt count is
bounded, one delay per retry with the documented backoff, every non-final
attempt is a retried (non-abort) failure, the final result mirrors the final
attempt, and a cancellation surfaces immediately. -/
def SendSpec (oracle : Nat → FetchOutcome) (a r fuel : Nat) : Prop :=
  1 ≤ (sendWebhook oracle a r).attempts ∧
  (sendWebhook oracle a r).attempts ≤ fuel + 1 ∧
  (sendWebhook oracle a r).delays.length = (sendWebhook oracle a r).attempts - 1 ∧
  (∀ (k : Nat) (hk : k < (sendWebhook oracle a r).delays.length),
    (sendWebhook oracle a r).delays.get ⟨k, hk⟩ = retryDelayFor (oracle (a + k)) (r + k)) ∧
  (∀ k : Nat, k + 1 < (sendWebhook oracle a r).attempts →
    isSuccess (oracle (a + k)) = false ∧ oracle (a + k) ≠ .err "AbortError") ∧
  (resultOk (sendWebhook oracle a r).result
    = isSuccess (oracle (a + ((sendWebhook oracle a r).attempts - 1)))) ∧
  (oracle (a + ((sendWebhook oracle a r).attempts - 1)) = .err "AbortError" →
    (sendWebhook oracle a r).result = .error "AbortError")

/-- The retry form of a `_sendWebhook` trace: one more attempt, and the delay
slept before the retry in front of the recursive call's delays. -/
def retryTrace (oracle : Nat → FetchOutcome) (a r : Nat) (d : Int) : SendTrace :=
  { result := (sendWebhook oracle (a + 1) (r + 1)).result
    delays := d :: (sendWebhook oracle (a + 1) (r + 1)).delays
    attempts := (sendWebhook oracle (a + 1) (r + 1)).attempts + 1 }

end Discord

/-- Comparison of a source's stored timestamp before and after an operation:
true when the timestamp was absent before, or present afterwards with a value
at least as large. -/
def timestampAdvanced (before after : Option Int) : Bool :=
  match before, after with
  | none, _ => true
  | some v, some v' => v ≤ v'
  | some _, none => false

/-! ## Sample values used by witnesses and counterexamples -/

def videoA : Video :=
  { id := "a", sourceType := "channel", sourceId := "C1", published := 100 }

def videoB : Video :=
  { id := "b", sourceType := "channel", sourceId := "C1", published := 200 }

def videoC : Video :=
  { id := "c", sourceType := "playlist", sourceId := "P1", published := 150 }

/-- A fresh cache in memory-only mode. -/
def emptyCache : CacheState :=
  { cacheFile := none, seenVideoIds := [], latestVideoTimestamps := [], lastSaveTime := 0 }

/-- A file-backed cache that has already seen video `"a"` and was last saved
at time 1000. -/
def seenACache : CacheState :=
  { cacheFile := some "cache.json", seenVideoIds := ["a"],
    latestVideoTimestamps := [("channel:C1", 50)], lastSaveTime := 1000 }

/-- A file-backed cache used for the persistence round-trip witness. -/
def roundtripCache : CacheState :=
  { cacheFile := some "cache.json", seenVideoIds := ["x", "y"],
    latestVideoTimestamps := [("channel:C1", 1735689600000)], lastSaveTime := 0 }

/-! ## Helper lemmas on the JS collection primitives -/

theorem mem_setAdd {s : List String} {x y : String} :
    y ∈ setAdd s x ↔ y ∈ s ∨ y = x := by
  unfold setAdd
  split
  · rename_i hx
    constructor
    · exact Or.inl
    · rintro (hy | rfl)
      · exact hy
      · exact hx
  · simp

theorem setAdd_of_mem {s : List String} {x : String} (h : x ∈ s) : setAdd s x = s := by
  unfold setAdd
  simp [h]

theorem setAdd_of_not_mem {s : List String} {x : String} (h : x ∉ s) :
    setAdd s x = s ++ [x] := by
  unfold setAdd
  simp [h]

theorem foldl_setAdd_eq_append (l : List String) :
    ∀ acc, l.Nodup → (∀ x ∈ l, x ∉ acc) → l.foldl setAdd acc = acc ++ l := by
  induction l with
  | nil => intro acc _ _; simp
  | cons v vs ih =>
    intro acc hnd hdisj
    rw [List.foldl_cons, setAdd_of_not_mem (hdisj v (by simp))]
    rw [ih (acc ++ [v]) (List.nodup_cons.mp hnd).2 ?_]
    · simp
    · intro x hx
      simp only [List.mem_append, List.mem_singleton]
      rintro (hxa | rfl)
      · exact hdisj x (by simp [hx]) hxa
      · exact (List.nodup_cons.mp hnd).1 hx

theorem jsSetFromArray_of_nodup {l : List String} (h : l.Nodup) : jsSetFromArray l = l := by
  unfold jsSetFromArray
  simpa using foldl_setAdd_eq_append l [] h (by simp)

theorem mem_foldl_setAdd (l : List String) :
    ∀ acc x, x ∈ l.foldl setAdd acc ↔ x ∈ acc ∨ x ∈ l := by
  induction l with
  | nil => intro acc x; simp
  | cons v vs ih =>
    intro acc x
    rw [List.foldl_cons, ih]
    rw [mem_setAdd]
    constructor
    · rintro ((hx | rfl) | hx)
      · exact Or.inl hx
      · exact Or.inr (by simp)
      · exact Or.inr (by simp [hx])
    · rintro (hx | hx)
      · exact Or.inl (Or.inl hx)
      · rcases List.mem_cons.mp hx with rfl | hx
        · exact Or.inl (Or.inr rfl)
        · exact Or.inr hx

theorem mem_jsSetFromArray {l : List String} {x : String} :
    x ∈ jsSetFromArray l ↔ x ∈ l := by
  unfold jsSetFromArray
  simpa using mem_foldl_setAdd l [] x

theorem mapGet_append_of_some {m1 m2 : List (String × Int)} {k : String} {v : Int}
    (h : mapGet m1 k = some v) : mapGet (m1 ++ m2) k = some v := by
  induction m1 with
  | nil => simp [mapGet] at h
  | cons p rest ih =>
    obtain ⟨k', w⟩ := p
    have h' : (if k' = k then some w else mapGet rest k) = some v := h
    show (if k' = k then some w else mapGet (rest ++ m2) k) = some v
    by_cases hk : k' = k
    · rw [if_pos hk] at h' ⊢
      exact h'
    · rw [if_neg hk] at h' ⊢
      exact ih h'

theorem mapGet_append_of_none {m1 m2 : List (String × Int)} {k : String}
    (h : mapGet m1 k = none) : mapGet (m1 ++ m2) k = mapGet m2 k := by
  induction m1 with
  | nil => rfl
  | cons p rest ih =>
    obtain ⟨k', w⟩ := p
    have h' : (if k' = k then some w else mapGet rest k) = none := h
    show (if k' = k then some w else mapGet (rest ++ m2) k) = mapGet m2 k
    by_cases hk : k' = k
    · rw [if_pos hk] at h'
      exact absurd h' (by simp)
    · rw [if_neg hk] at h' ⊢
      exact ih h'

theorem mapGet_map_replace {m : List (String × Int)} {k s : String} {v : Int}
    (h : s ≠ k) :
    mapGet (m.map (fun p => if p.1 = k then (k, v) else p)) s = mapGet m s := by
  induction m with
  | nil => rfl
  | cons p rest ih =>
    obtain ⟨k', w⟩ := p
    show mapGet ((if k' = k then (k, v) else (k', w)) :: _) s = _
    by_cases hk : k' = k
    · rw [if_pos hk]
      show (if k = s then some v else _) = (if k' = s then some w else mapGet rest s)
      rw [if_neg (fun hh => h hh.symm), if_neg (fun hh => h (hk ▸ hh).symm)]
      exact ih
    · rw [if_neg hk]
      show (if k' = s then some w else _) = (if k' = s then some w else mapGet rest s)
      by_cases hks : k' = s
      · rw [if_pos hks, if_pos hks]
      · rw [if_neg hks, if_neg hks]
        exact ih

theorem mapGet_mapSet_self (m : List (String × Int)) (k : String) (v : Int) :
    mapGet (mapSet m k v) k = some v := by
  induction m with
  | nil => simp [mapSet, mapGet]
  | cons p rest ih =>
    obtain ⟨k', w⟩ := p
    by_cases hk : k' = k
    · have hsome : (mapGet ((k', w) :: rest) k).isSome = true := by
        show (if k' = k then some w else mapGet rest k).isSome = true
        rw [if_pos hk]
        rfl
      unfold mapSet
      rw [if_pos hsome]
      show mapGet ((if k' = k then (k, v) else (k', w)) :: _) k = some v
      rw [if_pos hk]
      show (if k = k then some v else _) = some v
      rw [if_pos rfl]
    · have hcons : mapGet ((k', w) :: rest) k = mapGet rest k := by
        show (if k' = k then some w else mapGet rest k) = mapGet rest k
        rw [if_neg hk]
      by_cases hs : (mapGet rest k).isSome
      · have e1 : mapSet ((k', w) :: rest) k v
            = (k', w) :: rest.map (fun p => if p.1 = k then (k, v) else p) := by
          unfold mapSet
          rw [if_pos (hcons ▸ hs)]
          show ((if k' = k then (k, v) else (k', w)) :: _) = _
          rw [if_neg hk]
        have e2 : mapSet rest k v = rest.map (fun p => if p.1 = k then (k, v) else p) := by
          unfold mapSet
          rw [if_pos hs]
        rw [e1]
        show (if k' = k then some w else mapGet (rest.map _) k) = some v
        rw [if_neg hk, ← e2]
        exact ih
      · have e1 : mapSet ((k', w) :: rest) k v = (k', w) :: (rest ++ [(k, v)]) := by
          unfold mapSet
          rw [if_neg (by rw [hcons]; exact fun hh => hs hh)]
          rfl
        have e2 : mapSet rest k v = rest ++ [(k, v)] := by
          unfold mapSet
          rw [if_neg hs]
        rw [e1]
        show (if k' = k then some w else mapGet (rest ++ [(k, v)]) k) = some v
        rw [if_neg hk, ← e2]
        exact ih

theorem mapGet_mapSet_ne (m : List (String × Int)) (k : String) (v : Int) {s : String}
    (h : s ≠ k) : mapGet (mapSet m k v) s = mapGet m s := by
  unfold mapSet
  split
  · exact mapGet_map_replace h
  · cases hms : mapGet m s with
    | some w =>
      have h1 : mapGet (m ++ [(k, v)]) s = some w := mapGet_append_of_some hms
      rw [h1]
    | none =>
      have h2 : mapGet [(k, v)] s = none := by
        show (if k = s then some v else mapGet [] s) = none
        rw [if_neg (fun hh : k = s => h hh.symm)]
        rfl
      have h1 : mapGet (m ++ [(k, v)]) s = mapGet [(k, v)] s := mapGet_append_of_none hms
      rw [h1, h2]

theorem foldl_mapSet_eq_append (l : List (String × Int)) :
    ∀ acc, (l.map Prod.fst).Nodup → (∀ kv ∈ l, mapGet acc kv.1 = none) →
      l.foldl (fun m kv => mapSet m kv.1 kv.2) acc = acc ++ l := by
  induction l with
  | nil => intro acc _ _; simp
  | cons kv rest ih =>
    intro acc hnd hnone
    obtain ⟨k, v⟩ := kv
    have h0 : mapGet acc k = none := hnone (k, v) (by simp)
    have hset : mapSet acc k v = acc ++ [(k, v)] := by
      unfold mapSet
      simp [h0]
    rw [List.foldl_cons]
    show rest.foldl (fun m kv => mapSet m kv.1 kv.2) (mapSet acc k v) = _
    rw [hset]
    rw [ih (acc ++ [(k, v)]) ?_ ?_]
    · simp
    · simpa using (List.nodup_cons.mp (by simpa using hnd)).2
    · intro kv' hkv'
      have hkne : kv'.1 ≠ k := by
        intro hh
        have : k ∈ rest.map Prod.fst := by
          refine List.mem_map.mpr ⟨kv', hkv', hh⟩
        exact (List.nodup_cons.mp (by simpa using hnd)).1 this
      rw [mapGet_append_of_none (hnone kv' (by simp [hkv']))]
      show (if k = kv'.1 then some v else mapGet [] kv'.1) = none
      rw [if_neg (fun hh : k = kv'.1 => hkne hh.symm)]
      rfl

theorem mapFromEntries_of_nodup {l : List (String × Int)}
    (h : (l.map Prod.fst).Nodup) : mapFromEntries l = l := by
  unfold mapFromEntries
  simpa using foldl_mapSet_eq_append l [] h (fun kv _ => rfl)

/-! ## Frame lemmas for the cache operations -/

namespace VideoCache

theorem markAsSeen_latest (c : CacheState) (vid : String) :
    (markAsSeen c vid).latestVideoTimestamps = c.latestVideoTimestamps := rfl

theorem markAsSeen_cacheFile (c : CacheState) (vid : String) :
    (markAsSeen c vid).cacheFile = c.cacheFile := rfl

theorem markAsSeen_lastSaveTime (c : CacheState) (vid : String) :
    (markAsSeen c vid).lastSaveTime = c.lastSaveTime := rfl

theorem markAsSeen_seen (c : CacheState) (vid : String) :
    (markAsSeen c vid).seenVideoIds = setAdd c.seenVideoIds vid := rfl

theorem updateLatestTimestamp_seen (c : CacheState) (k : String) (t : Int) :
    (updateLatestTimestamp c k t).seenVideoIds = c.seenVideoIds := by
  unfold updateLatestTimestamp
  split
  · rfl
  · split <;> rfl

theorem updateLatestTimestamp_cacheFile (c : CacheState) (k : String) (t : Int) :
    (updateLatestTimestamp c k t).cacheFile = c.cacheFile := by
  unfold updateLatestTimestamp
  split
  · rfl
  · split <;> rfl

theorem updateLatestTimestamp_lastSaveTime (c : CacheState) (k : String) (t : Int) :
    (updateLatestTimestamp c k t).lastSaveTime = c.lastSaveTime := by
  unfold updateLatestTimestamp
  split
  · rfl
  · split <;> rfl

theorem updateAllTimestamps_seen (videos : List Video) (c : CacheState) :
    (updateAllTimestamps c videos).seenVideoIds = c.seenVideoIds := by
  unfold updateAllTimestamps
  generalize computeSourceTimestamps videos = l
  induction l generalizing c with
  | nil => rfl
  | cons kv rest ih =>
    rw [List.foldl_cons, ih, updateLatestTimestamp_seen]

theorem updateAllTimestamps_cacheFile (videos : List Video) (c : CacheState) :
    (updateAllTimestamps c videos).cacheFile = c.cacheFile := by
  unfold updateAllTimestamps
  generalize computeSourceTimestamps videos = l
  induction l generalizing c with
  | nil => rfl
  | cons kv rest ih =>
    rw [List.foldl_cons, ih, updateLatestTimestamp_cacheFile]

theorem updateAllTimestamps_lastSaveTime (videos : List Video) (c : CacheState) :
    (updateAllTimestamps c videos).lastSaveTime = c.lastSaveTime := by
  unfold updateAllTimestamps
  generalize computeSourceTimestamps videos = l
  induction l generalizing c with
  | nil => rfl
  | cons kv rest ih =>
    rw [List.foldl_cons, ih, updateLatestTimestamp_lastSaveTime]

theorem foldl_markAsSeen_latest (videos : List Video) (c : CacheState) :
    (videos.foldl (fun s video => markAsSeen s video.id) c).latestVideoTimestamps
      = c.latestVideoTimestamps := by
  induction videos generalizing c with
  | nil => rfl
  | cons v vs ih =>
    rw [List.foldl_cons, ih, markAsSeen_latest]

theorem foldl_markAsSeen_cacheFile (videos : List Video) (c : CacheState) :
    (videos.foldl (fun s video => markAsSeen s video.id) c).cacheFile = c.cacheFile := by
  induction videos generalizing c with
  | nil => rfl
  | cons v vs ih =>
    rw [List.foldl_cons, ih, markAsSeen_cacheFile]

theorem foldl_markAsSeen_lastSaveTime (videos : List Video) (c : CacheState) :
    (videos.foldl (fun s video => markAsSeen s video.id) c).lastSaveTime
      = c.lastSaveTime := by
  induction videos generalizing c with
  | nil => rfl
  | cons v vs ih =>
    rw [List.foldl_cons, ih, markAsSeen_lastSaveTime]

/-- Marking a batch only appends ids that were genuinely unseen. -/
theorem foldl_markAsSeen_extra (videos : List Video) (c : CacheState) :
    ∃ extra, (videos.foldl (fun s video => markAsSeen s video.id) c).seenVideoIds
        = c.seenVideoIds ++ extra ∧ ∀ id ∈ extra, id ∉ c.seenVideoIds := by
  induction videos generalizing c with
  | nil => exact ⟨[], by simp⟩
  | cons v vs ih =>
    obtain ⟨extra, heq, hnot⟩ := ih (markAsSeen c v.id)
    rw [List.foldl_cons]
    by_cases hv : v.id ∈ c.seenVideoIds
    · refine ⟨extra, ?_, ?_⟩
      · rw [heq, markAsSeen_seen, setAdd_of_mem hv]
      · intro id hid
        have := hnot id hid
        rw [markAsSeen_seen, setAdd_of_mem hv] at this
        exact this
    · refine ⟨v.id :: extra, ?_, ?_⟩
      · rw [heq, markAsSeen_seen, setAdd_of_not_mem hv]
        simp
      · intro id hid
        rcases List.mem_cons.mp hid with rfl | hid
        · exact hv
        · have := hnot id hid
          rw [markAsSeen_seen, setAdd_of_not_mem hv] at this
          intro hc
          exact this (by simp [hc])

/-- Membership in the seen set after marking a batch. -/
theorem foldl_markAsSeen_mem (videos : List Video) (c : CacheState) (id : String) :
    id ∈ (videos.foldl (fun s video => markAsSeen s video.id) c).seenVideoIds
      ↔ id ∈ c.seenVideoIds ∨ id ∈ videos.map Video.id := by
  induction videos generalizing c with
  | nil => simp
  | cons v vs ih =>
    rw [List.foldl_cons, ih, markAsSeen_seen, mem_setAdd]
    constructor
    · rintro ((hid | rfl) | hid)
      · exact Or.inl hid
      · exact Or.inr (by simp)
      · exact Or.inr (by simp [hid])
    · rintro (hid | hid)
      · exact Or.inl (Or.inl hid)
      · rcases List.mem_map.mp hid with ⟨w, hw, hwid⟩
        rcases List.mem_cons.mp hw with rfl | hw
        · exact Or.inl (Or.inr hwid.symm)
        · exact Or.inr (List.mem_map.mpr ⟨w, hw, hwid⟩)

theorem hasBeenSeen_iff {c : CacheState} {id : String} :
    hasBeenSeen c id = true ↔ id ∈ c.seenVideoIds := by
  simp [hasBeenSeen]

theorem mem_filterNewVideos {c : CacheState} {videos : List Video} {v : Video}
    (h : v ∈ filterNewVideos c videos) : v.id ∉ c.seenVideoIds := by
  unfold filterNewVideos at h
  have h2 := (List.mem_filter.mp h).2
  simp [hasBeenSeen] at h2
  exact h2

/-- Elements produced by the development-mode sampler come from its input. -/
theorem devFilter_subset {v : Video} {l : List Video} (h : v ∈ devFilter l) : v ∈ l := by
  unfold devFilter at h
  suffices hgen : ∀ (acc : List Video × List String),
      v ∈ (l.foldl
        (fun acc video =>
          if sourceKey video ∈ acc.2 then acc
          else (acc.1 ++ [video], acc.2 ++ [sourceKey video])) acc).1
      → v ∈ acc.1 ∨ v ∈ l by
    rcases hgen ([], []) h with hv | hv
    · simp at hv
    · exact hv
  clear h
  induction l with
  | nil => intro acc h; exact Or.inl h
  | cons w ws ih =>
    intro acc h
    rw [List.foldl_cons] at h
    rcases ih _ h with hv | hv
    · by_cases hw : sourceKey w ∈ acc.2
      · rw [if_pos hw] at hv
        exact Or.inl hv
      · rw [if_neg hw] at hv
        rcases List.mem_append.mp hv with hv | hv
        · exact Or.inl hv
        · exact Or.inr (by simp [List.mem_singleton.mp hv])
    · exact Or.inr (by simp [hv])

end VideoCache

/-! ## Claims C1, C3, C4 (VideoCache.processVideos) -/

open VideoCache in
/-- C1: under every policy (initial-production, development, normal), an item
whose identity is already in the seen set before `processVideos` never appears
in the returned delivery list, and its identity is not re-marked: its
multiplicity in the seen set is unchanged. -/
theorem processVideos_seen_suppressed (c : CacheState) (videos : List Video)
    (init : Bool) (mode : String) (v : Video)
    (hv : hasBeenSeen c v.id = true) :
    v ∉ (processVideos c videos init mode).2 ∧
    (processVideos c videos init mode).1.seenVideoIds.count v.id
      = c.seenVideoIds.count v.id := by
  have hmem : v.id ∈ c.seenVideoIds := hasBeenSeen_iff.mp hv
  unfold processVideos processVideosPhase2
  set c1 := updateAllTimestamps c videos with hc1
  have hseen1 : c1.seenVideoIds = c.seenVideoIds := updateAllTimestamps_seen videos c
  have hcount : ∀ vs : List Video,
      ((vs.foldl (fun s video => markAsSeen s video.id) c1).seenVideoIds.count v.id
        = c.seenVideoIds.count v.id) := by
    intro vs
    obtain ⟨extra, heq, hnot⟩ := foldl_markAsSeen_extra vs c1
    have hz : extra.count v.id = 0 :=
      List.count_eq_zero.mpr (fun hc => (hnot v.id hc) (hseen1 ▸ hmem))
    rw [heq, hseen1, List.count_append, hz, Nat.add_zero]
  split
  · exact ⟨by simp, hcount videos⟩
  · split
    · refine ⟨?_, hcount _⟩
      intro hvin
      exact mem_filterNewVideos (devFilter_subset hvin) (hseen1 ▸ hmem)
    · refine ⟨?_, hcount _⟩
      intro hvin
      exact mem_filterNewVideos hvin (hseen1 ▸ hmem)

/-- Witness for C1 at a concrete cache and batch. -/
theorem processVideos_seen_suppressed_witness :
    videoA ∉ (VideoCache.processVideos seenACache [videoA, videoB] false "production").2 ∧
    (VideoCache.processVideos seenACache [videoA, videoB] false
        "production").1.seenVideoIds.count videoA.id
      = seenACache.seenVideoIds.count videoA.id :=
  processVideos_seen_suppressed seenACache [videoA, videoB] false "production" videoA
    (by decide)

open VideoCache in
/-- C3: on a bootstrap cache (empty seen set), the initial production run
returns no deliveries and afterwards the seen set holds exactly the identities
of the input items. -/
theorem processVideos_bootstrap_quiet (c : CacheState) (videos : List Video)
    (id : String) (hboot : c.seenVideoIds = []) :
    (processVideos c videos true "production").2 = [] ∧
    (id ∈ (processVideos c videos true "production").1.seenVideoIds
      ↔ id ∈ videos.map Video.id) := by
  unfold processVideos processVideosPhase2
  set c1 := updateAllTimestamps c videos with hc1
  have hseen1 : c1.seenVideoIds = [] := by
    rw [updateAllTimestamps_seen, hboot]
  rw [if_pos ⟨rfl, rfl⟩]
  refine ⟨rfl, ?_⟩
  show id ∈ (videos.foldl (fun s video => markAsSeen s video.id) c1).seenVideoIds ↔ _
  rw [foldl_markAsSeen_mem, hseen1]
  simp

/-- Witness for C3: three fresh items on an empty cache. -/
theorem processVideos_bootstrap_quiet_witness :
    (VideoCache.processVideos emptyCache [videoA, videoB, videoC] true "production").2 = [] ∧
    ("a" ∈ (VideoCache.processVideos emptyCache [videoA, videoB, videoC] true
        "production").1.seenVideoIds
      ↔ "a" ∈ ([videoA, videoB, videoC]).map Video.id) :=
  processVideos_bootstrap_quiet emptyCache [videoA, videoB, videoC] "a" rfl

/-- Normal policy on an all-new batch: the cache returns the batch itself. -/
theorem processVideos_full_eq (c : CacheState) (videos : List Video)
    (hnew : ∀ v ∈ videos, VideoCache.hasBeenSeen c v.id = false) :
    VideoCache.processVideos c videos false "production"
      = (videos.foldl (fun s video => VideoCache.markAsSeen s video.id)
          (VideoCache.updateAllTimestamps c videos), videos) := by
  unfold VideoCache.processVideos VideoCache.processVideosPhase2
  rw [if_neg (by simp), if_neg (by decide)]
  have hfilter : VideoCache.filterNewVideos (VideoCache.updateAllTimestamps c videos) videos
      = videos := by
    unfold VideoCache.filterNewVideos
    refine List.filter_eq_self.mpr ?_
    intro v hvv
    have hb : VideoCache.hasBeenSeen (VideoCache.updateAllTimestamps c videos) v.id = false := by
      unfold VideoCache.hasBeenSeen
      rw [VideoCache.updateAllTimestamps_seen]
      exact hnew v hvv
    rw [hb]
    rfl
  rw [hfilter]

/-- The normal policy returns nothing when every item of the batch is seen. -/
theorem processVideos_all_seen_nil (d : CacheState) (videos : List Video)
    (hall : ∀ v ∈ videos, VideoCache.hasBeenSeen d v.id = true) :
    (VideoCache.processVideos d videos false "production").2 = [] := by
  unfold VideoCache.processVideos VideoCache.processVideosPhase2
  rw [if_neg (by simp), if_neg (by decide)]
  show VideoCache.filterNewVideos _ videos = []
  unfold VideoCache.filterNewVideos
  refine List.filter_eq_nil_iff.mpr ?_
  intro v hvv
  have hb : VideoCache.hasBeenSeen (VideoCache.updateAllTimestamps d videos) v.id = true := by
    unfold VideoCache.hasBeenSeen
    rw [VideoCache.updateAllTimestamps_seen]
    simpa [VideoCache.hasBeenSeen] using hall v hvv
  simp [hb]

open VideoCache in
/-- C4: under the full (normal production) policy, a batch of unseen items is
returned exactly in input order, all its identities are marked seen, and an
immediately repeated call with the same items returns the empty list. -/
theorem processVideos_full_policy (c : CacheState) (videos : List Video)
    (hnew : ∀ v ∈ videos, hasBeenSeen c v.id = false) :
    (processVideos c videos false "production").2 = videos ∧
    (videos.all (fun v =>
        hasBeenSeen (processVideos c videos false "production").1 v.id) = true) ∧
    (processVideos (processVideos c videos false "production").1 videos false
        "production").2 = [] := by
  have heq := processVideos_full_eq c videos hnew
  have hmarked : ∀ v ∈ videos,
      hasBeenSeen (processVideos c videos false "production").1 v.id = true := by
    intro v hvv
    rw [heq]
    refine hasBeenSeen_iff.mpr ?_
    rw [foldl_markAsSeen_mem]
    exact Or.inr (List.mem_map.mpr ⟨v, hvv, rfl⟩)
  exact ⟨by rw [heq], List.all_eq_true.mpr hmarked,
    processVideos_all_seen_nil _ videos hmarked⟩

/-- Witness for C4: two fresh items processed twice on an empty cache. -/
theorem processVideos_full_policy_witness :
    (VideoCache.processVideos emptyCache [videoA, videoB] false "production").2
      = [videoA, videoB] ∧
    (([videoA, videoB]).all (fun v =>
        VideoCache.hasBeenSeen
          (VideoCache.processVideos emptyCache [videoA, videoB] false "production").1 v.id)
      = true) ∧
    (VideoCache.processVideos
        (VideoCache.processVideos emptyCache [videoA, videoB] false "production").1
        [videoA, videoB] false "production").2 = [] :=
  processVideos_full_policy emptyCache [videoA, videoB] (by decide)

/-! ## Claim C10 (VideoCache.cleanup) -/

namespace VideoCache

theorem mem_sliceLast {l : List String} {n : Nat} {id : String}
    (h : id ∈ sliceLast l n) : id ∈ l := by
  unfold sliceLast at h
  split at h
  · exact h
  · exact List.mem_of_mem_drop h

end VideoCache

open VideoCache in
/-- C10: cleanup never modifies latestBySource (nor the cache file or save
clock); when the seen set holds at most maxEntries identities the whole cache
is unchanged; and the seen set only ever shrinks. -/
theorem cleanup_frame (c : CacheState) (maxEntries : Nat) :
    (cleanup c maxEntries).latestVideoTimestamps = c.latestVideoTimestamps ∧
    (cleanup c maxEntries).cacheFile = c.cacheFile ∧
    (cleanup c maxEntries).lastSaveTime = c.lastSaveTime ∧
    (c.seenVideoIds.length ≤ maxEntries → cleanup c maxEntries = c) ∧
    (∀ id ∈ (cleanup c maxEntries).seenVideoIds, id ∈ c.seenVideoIds) := by
  unfold cleanup
  split
  · exact ⟨rfl, rfl, rfl, fun _ => rfl, fun id hid => hid⟩
  · rename_i hgt
    refine ⟨rfl, rfl, rfl, fun hle => absurd hle hgt, ?_⟩
    intro id hid
    have hid2 := mem_jsSetFromArray.mp hid
    have hid3 := mem_sliceLast hid2
    exact List.mem_mergeSort.mp hid3

/-! ## Claim C8 (persistence round-trip) -/

open VideoCache in
/-- C8: saving and re-loading a cache reproduces it: the loaded seen set has
exactly the saved members and the loaded latestBySource map gives every key
the saved value. -/
theorem save_load_roundtrip (c : CacheState) (f : Option String) (now : Int)
    (x k : String) (h1 : c.seenVideoIds.Nodup)
    (h2 : (c.latestVideoTimestamps.map Prod.fst).Nodup) :
    (x ∈ (loadData (saveData c) f now).seenVideoIds ↔ x ∈ c.seenVideoIds) ∧
    mapGet (loadData (saveData c) f now).latestVideoTimestamps k
      = mapGet c.latestVideoTimestamps k := by
  have hm : mapFromEntries c.latestVideoTimestamps = c.latestVideoTimestamps :=
    mapFromEntries_of_nodup h2
  have hseen : (loadData (saveData c) f now).seenVideoIds = c.seenVideoIds := by
    show jsSetFromArray c.seenVideoIds = c.seenVideoIds
    exact jsSetFromArray_of_nodup h1
  have hlatest : (loadData (saveData c) f now).latestVideoTimestamps
      = c.latestVideoTimestamps := by
    show mapFromEntries (mapFromEntries c.latestVideoTimestamps) = c.latestVideoTimestamps
    rw [hm, hm]
  rw [hseen, hlatest]
  exact ⟨Iff.rfl, rfl⟩

/-- Witness for C8 on a concrete two-id, one-source cache. -/
theorem save_load_roundtrip_witness :
    ("x" ∈ (VideoCache.loadData (VideoCache.saveData roundtripCache)
        (some "cache.json") 0).seenVideoIds ↔ "x" ∈ roundtripCache.seenVideoIds) ∧
    mapGet (VideoCache.loadData (VideoCache.saveData roundtripCache)
        (some "cache.json") 0).latestVideoTimestamps "channel:C1"
      = mapGet roundtripCache.latestVideoTimestamps "channel:C1" :=
  save_load_roundtrip roundtripCache (some "cache.json") 0 "x" "channel:C1"
    (by decide) (by decide)

/-! ## Claim C9 (latestBySource monotonicity) -/

namespace VideoCache

/-- Full characterization of `updateLatestTimestamp` on a key that is present:
the stored value changes only at the updated source and only to a strictly
newer timestamp. -/
theorem updateLatestTimestamp_get (c : CacheState) (src : String) (t : Int)
    (s : String) (v : Int) (h : mapGet c.latestVideoTimestamps s = some v) :
    mapGet (updateLatestTimestamp c src t).latestVideoTimestamps s
      = some (if s = src ∧ v < t then t else v) := by
  unfold updateLatestTimestamp
  split
  · rename_i hsrc
    have hne : s ≠ src := by
      intro hh
      rw [hh, hsrc] at h
      cases h
    show mapGet (mapSet c.latestVideoTimestamps src t) s = _
    rw [mapGet_mapSet_ne _ _ _ hne, h, if_neg (fun hc => hne hc.1)]
  · rename_i cur hsrc
    split
    · rename_i hgt
      by_cases hs : s = src
      · subst hs
        have hv : v = cur := by
          rw [h] at hsrc
          exact Option.some.inj hsrc
        show mapGet (mapSet c.latestVideoTimestamps s t) s = _
        rw [mapGet_mapSet_self, if_pos ⟨rfl, by omega⟩]
      · show mapGet (mapSet c.latestVideoTimestamps src t) s = _
        rw [mapGet_mapSet_ne _ _ _ hs, h, if_neg (fun hc => hs hc.1)]
    · rename_i hngt
      show mapGet c.latestVideoTimestamps s = _
      rw [h]
      by_cases hs : s = src
      · subst hs
        have hv : v = cur := by
          rw [h] at hsrc
          exact Option.some.inj hsrc
        rw [if_neg (fun hc => hngt (hv ▸ hc.2))]
      · rw [if_neg (fun hc => hs hc.1)]

theorem timestampAdvanced_refl (a : Option Int) : timestampAdvanced a a = true := by
  cases a with
  | none => rfl
  | some v => simp [timestampAdvanced]

theorem timestampAdvanced_trans {a b c' : Option Int}
    (h1 : timestampAdvanced a b = true) (h2 : timestampAdvanced b c' = true) :
    timestampAdvanced a c' = true := by
  cases a with
  | none => rfl
  | some v =>
    cases b with
    | none => simp [timestampAdvanced] at h1
    | some w =>
      cases c' with
      | none => simp [timestampAdvanced] at h2
      | some u =>
        simp [timestampAdvanced] at h1 h2 ⊢
        omega

/-- One `updateLatestTimestamp` call never lowers any stored timestamp. -/
theorem timestampAdvanced_update (c : CacheState) (src : String) (t : Int) (s : String) :
    timestampAdvanced (mapGet c.latestVideoTimestamps s)
      (mapGet (updateLatestTimestamp c src t).latestVideoTimestamps s) = true := by
  cases h : mapGet c.latestVideoTimestamps s with
  | none => rfl
  | some v =>
    rw [updateLatestTimestamp_get c src t s v h]
    simp only [timestampAdvanced, decide_eq_true_eq]
    split
    · rename_i hc
      exact le_of_lt hc.2
    · exact le_refl v

theorem timestampAdvanced_updateAll (videos : List Video) (c : CacheState) (s : String) :
    timestampAdvanced (mapGet c.latestVideoTimestamps s)
      (mapGet (updateAllTimestamps c videos).latestVideoTimestamps s) = true := by
  unfold updateAllTimestamps
  generalize computeSourceTimestamps videos = l
  induction l generalizing c with
  | nil => exact timestampAdvanced_refl _
  | cons kv rest ih =>
    rw [List.foldl_cons]
    exact timestampAdvanced_trans (timestampAdvanced_update c kv.1 kv.2 s)
      (ih (updateLatestTimestamp c kv.1 kv.2))

/-- The delivered-item phase of `processVideos` never touches the timestamp map. -/
theorem processVideos_latest (c : CacheState) (videos : List Video) (init : Bool)
    (mode : String) :
    (processVideos c videos init mode).1.latestVideoTimestamps
      = (updateAllTimestamps c videos).latestVideoTimestamps := by
  unfold processVideos processVideosPhase2
  split
  · exact foldl_markAsSeen_latest _ _
  · split
    · exact foldl_markAsSeen_latest _ _
    · exact foldl_markAsSeen_latest _ _

theorem save_latest (c : CacheState) (force : Bool) (now : Int) :
    (save c force now).1.latestVideoTimestamps = c.latestVideoTimestamps := by
  unfold save
  split
  · rfl
  · split <;> rfl

end VideoCache

open VideoCache in
/-- C9: per-source stored timestamps are monotone.  `updateLatestTimestamp`
replaces a present value only at the updated source and only with a strictly
newer timestamp; `processVideos` never lowers (or drops) any stored timestamp;
and `cleanup`, `save` and `markAsSeen` leave the map untouched. -/
theorem latest_timestamps_monotone :
    (∀ (c : CacheState) (src : String) (t : Int) (s : String) (v : Int),
        mapGet c.latestVideoTimestamps s = some v →
        mapGet (updateLatestTimestamp c src t).latestVideoTimestamps s
          = some (if s = src ∧ v < t then t else v)) ∧
    (∀ (c : CacheState) (videos : List Video) (init : Bool) (mode : String) (s : String),
        timestampAdvanced (mapGet c.latestVideoTimestamps s)
          (mapGet (processVideos c videos init mode).1.latestVideoTimestamps s) = true) ∧
    (∀ (c : CacheState) (maxEntries : Nat) (force : Bool) (now : Int) (vid : String),
        (cleanup c maxEntries).latestVideoTimestamps = c.latestVideoTimestamps ∧
        (save c force now).1.latestVideoTimestamps = c.latestVideoTimestamps ∧
        (markAsSeen c vid).latestVideoTimestamps = c.latestVideoTimestamps) := by
  refine ⟨updateLatestTimestamp_get, ?_, ?_⟩
  · intro c videos init mode s
    rw [processVideos_latest]
    exact timestampAdvanced_updateAll videos c s
  · intro c maxEntries force now vid
    refine ⟨?_, save_latest c force now, markAsSeen_latest c vid⟩
    unfold cleanup
    split
    · rfl
    · rfl

/-! ## Claim C2 (save after delivery is throttled, not forced) -/

namespace VideoCache

theorem processVideos_cacheFile (c : CacheState) (videos : List Video) (init : Bool)
    (mode : String) :
    (processVideos c videos init mode).1.cacheFile = c.cacheFile := by
  unfold processVideos processVideosPhase2
  split
  · rw [foldl_markAsSeen_cacheFile, updateAllTimestamps_cacheFile]
  · split
    · rw [foldl_markAsSeen_cacheFile, updateAllTimestamps_cacheFile]
    · rw [foldl_markAsSeen_cacheFile, updateAllTimestamps_cacheFile]

theorem processVideos_lastSaveTime (c : CacheState) (videos : List Video) (init : Bool)
    (mode : String) :
    (processVideos c videos init mode).1.lastSaveTime = c.lastSaveTime := by
  unfold processVideos processVideosPhase2
  split
  · rw [foldl_markAsSeen_lastSaveTime, updateAllTimestamps_lastSaveTime]
  · split
    · rw [foldl_markAsSeen_lastSaveTime, updateAllTimestamps_lastSaveTime]
    · rw [foldl_markAsSeen_lastSaveTime, updateAllTimestamps_lastSaveTime]

/-- Characterization of an un-forced `save`: the file is written exactly when
a cache file is configured and the 30-second throttle has elapsed. -/
theorem save_unforced (c : CacheState) (now : Int) :
    (save c false now).2 = true ↔
      c.cacheFile.isSome = true ∧ 30000 ≤ now - c.lastSaveTime := by
  unfold save
  split
  · rename_i hnone
    simp [hnone]
  · rename_i f hsome
    split
    · rename_i hcond
      have h2 := hcond.2
      simp only [hsome]
      constructor
      · intro hf
        cases hf
      · rintro ⟨-, hle⟩
        omega
    · rename_i hcond
      have h2 : ¬(now - c.lastSaveTime < 30000) := by
        intro hlt
        exact hcond ⟨by simp, hlt⟩
      simp only [hsome]
      constructor
      · intro _
        exact ⟨rfl, by omega⟩
      · intro _
        trivial

end VideoCache

open VideoCache CycleProcessor in
/-- C2 (amended): in a polling cycle whose delivery list is non-empty the
cycle processor calls `save` without `force`, so the cache file is written
exactly when one is configured and at least 30 seconds have elapsed since the
previous save — the throttle is not bypassed. -/
theorem cycle_save_after_delivery_throttled (c : CacheState) (videos : List Video)
    (testMode developmentMode : Bool) (now : Int)
    (hdeliver : (processCycle c videos testMode developmentMode now).2.1 ≠ []) :
    ((processCycle c videos testMode developmentMode now).2.2 = true ↔
      c.cacheFile.isSome = true ∧ 30000 ≤ now - c.lastSaveTime) := by
  unfold processCycle at hdeliver ⊢
  by_cases hempty : videos.isEmpty
  · rw [if_pos hempty] at hdeliver
    exact absurd rfl hdeliver
  · rw [if_neg hempty] at hdeliver ⊢
    unfold processCyclePost at hdeliver ⊢
    by_cases hnil : (processVideos c videos (isInitialRun c)
        (cycleMode testMode developmentMode)).2.isEmpty
    · rw [if_pos hnil] at hdeliver
      exact absurd rfl hdeliver
    · rw [if_neg hnil]
      show (save (processVideos c videos (isInitialRun c)
          (cycleMode testMode developmentMode)).1 false now).2 = true ↔ _
      rw [save_unforced, processVideos_cacheFile, processVideos_lastSaveTime]

/-- Witness for the amended C2: a non-empty delivery with the throttle
elapsed does write the file. -/
theorem cycle_save_after_delivery_throttled_witness :
    ((CycleProcessor.processCycle seenACache [videoB] false false 100000).2.2 = true ↔
      seenACache.cacheFile.isSome = true ∧ 30000 ≤ (100000 : Int) - seenACache.lastSaveTime) :=
  cycle_save_after_delivery_throttled seenACache [videoB] false false 100000 (by decide)

/-- Counterexample to C2 as stated: a cycle that delivers one item while the
last save was moments ago leaves the state file unwritten — the save after
dispatch is not forced. -/
theorem cycle_save_after_delivery_not_forced_counterexample :
    (CycleProcessor.processCycle seenACache [videoB] false false 1000).2.1 ≠ [] ∧
    seenACache.cacheFile.isSome = true ∧
    (1000 : Int) - seenACache.lastSaveTime < 30000 ∧
    (CycleProcessor.processCycle seenACache [videoB] false false 1000).2.2 = false :=
  ⟨by decide, by decide, by decide, by decide⟩

/-! ## Claim C5 (rate limiter) -/

open Discord in
/-- C5: the admit decision first drops timestamps older than the 2000 ms
window; with fewer than 5 survivors the wait is zero, otherwise the wait is
exactly `2000 - (now - oldest surviving timestamp)` (the first list entry,
which is the minimum for chronologically recorded timestamps). -/
theorem rate_limiter_admit (requestTimestamps : List Int) (now oldest : Int)
    (hsorted : requestTimestamps.Sorted (· ≤ ·)) :
    (admitDelay requestTimestamps now).1
      = requestTimestamps.filter (fun t => now - t < RATE_LIMIT_WINDOW_MS) ∧
    ((admitDelay requestTimestamps now).1.length < RATE_LIMIT_REQUESTS →
      (admitDelay requestTimestamps now).2 = 0) ∧
    (RATE_LIMIT_REQUESTS ≤ (admitDelay requestTimestamps now).1.length →
      (admitDelay requestTimestamps now).1.head? = some oldest →
      (∀ t ∈ (admitDelay requestTimestamps now).1, oldest ≤ t) ∧
      (admitDelay requestTimestamps now).2 = RATE_LIMIT_WINDOW_MS - (now - oldest)) := by
  have h1 : (admitDelay requestTimestamps now).1
      = requestTimestamps.filter (fun t => now - t < RATE_LIMIT_WINDOW_MS) := by
    unfold admitDelay
    split <;> rfl
  refine ⟨h1, ?_, ?_⟩
  · intro hlen
    rw [h1] at hlen
    have hcan : (canMakeRequest requestTimestamps now).2 = true := decide_eq_true hlen
    unfold admitDelay
    rw [if_pos hcan]
  · intro hlen hhead
    rw [h1] at hlen hhead
    have hcan : (canMakeRequest requestTimestamps now).2 = false :=
      decide_eq_false (by omega)
    have hsf : ((requestTimestamps.filter
        (fun t => now - t < RATE_LIMIT_WINDOW_MS))).Sorted (· ≤ ·) :=
      hsorted.filter _
    rw [h1]
    cases hf : requestTimestamps.filter (fun t => now - t < RATE_LIMIT_WINDOW_MS) with
    | nil =>
      rw [hf] at hhead
      cases hhead
    | cons a rest =>
      rw [hf] at hhead hsf
      have ha : a = oldest := by
        simpa using hhead
      subst ha
      constructor
      · intro t ht
        rcases List.mem_cons.mp ht with rfl | ht
        · exact le_refl t
        · exact List.rel_of_sorted_cons hsf t ht
      · have hmem : a ∈ requestTimestamps.filter
            (fun t => now - t < RATE_LIMIT_WINDOW_MS) := by
          rw [hf]
          simp
        have hpred : now - a < RATE_LIMIT_WINDOW_MS := by
          simpa using (List.mem_filter.mp hmem).2
        unfold admitDelay
        rw [if_neg (by rw [hcan]; simp)]
        show calculateDelay (requestTimestamps.filter
          (fun t => now - t < RATE_LIMIT_WINDOW_MS)) now = _
        rw [hf]
        show (if now - a ≥ RATE_LIMIT_WINDOW_MS then 0
          else RATE_LIMIT_WINDOW_MS - (now - a)) = RATE_LIMIT_WINDOW_MS - (now - a)
        rw [if_neg (by omega)]

/-- Witness for C5: five in-window sends force a wait of exactly
`2000 - (now - oldest)` milliseconds. -/
theorem rate_limiter_admit_witness :
    (Discord.admitDelay [0, 100, 200, 300, 400] 1000).1
      = ([0, 100, 200, 300, 400] : List Int).filter
          (fun t => 1000 - t < Discord.RATE_LIMIT_WINDOW_MS) ∧
    ((Discord.admitDelay [0, 100, 200, 300, 400] 1000).1.length
        < Discord.RATE_LIMIT_REQUESTS →
      (Discord.admitDelay [0, 100, 200, 300, 400] 1000).2 = 0) ∧
    (Discord.RATE_LIMIT_REQUESTS
        ≤ (Discord.admitDelay [0, 100, 200, 300, 400] 1000).1.length →
      (Discord.admitDelay [0, 100, 200, 300, 400] 1000).1.head? = some 0 →
      (∀ t ∈ (Discord.admitDelay [0, 100, 200, 300, 400] 1000).1, (0 : Int) ≤ t) ∧
      (Discord.admitDelay [0, 100, 200, 300, 400] 1000).2
        = Discord.RATE_LIMIT_WINDOW_MS - (1000 - 0)) :=
  rate_limiter_admit [0, 100, 200, 300, 400] 1000 0 (by decide)

/-! ## Claim C7 (multi-webhook fan-out aggregates, never throws) -/

namespace Discord

theorem foldl_settleStep_promises (sendOutcomes : List (Except String Unit)) :
    ∀ (acc : List WebhookResult × Nat) (n : Nat),
      ((webhookPromises sendOutcomes n).foldl settleStep acc).1
        = acc.1 ++ expectedResults sendOutcomes n := by
  induction sendOutcomes with
  | nil => intro acc n; simp [webhookPromises, expectedResults]
  | cons o rest ih =>
    intro acc n
    show ((webhookPromises rest (n + 1)).foldl settleStep
      (settleStep acc (webhookTask o n))).1 = _
    have hstep : settleStep acc (webhookTask o n)
        = (acc.1 ++ [expectedResult n o], acc.2 + 1) := by
      cases o <;> rfl
    rw [hstep, ih]
    show (acc.1 ++ [expectedResult n o]) ++ expectedResults rest (n + 1) = _
    rw [List.append_assoc]
    rfl

theorem expectedResults_length (sendOutcomes : List (Except String Unit)) :
    ∀ n, (expectedResults sendOutcomes n).length = sendOutcomes.length := by
  induction sendOutcomes with
  | nil => intro n; rfl
  | cons o rest ih =>
    intro n
    show (expectedResults rest (n + 1)).length + 1 = rest.length + 1
    rw [ih]

end Discord

open Discord in
/-- C7: for one item and a non-empty endpoint list, the multi-webhook fan-out
returns exactly one outcome record per configured endpoint, in endpoint
order, each failure recorded as a success flag with error detail instead of
being thrown. -/
theorem multi_webhook_aggregates (sendOutcomes : List (Except String Unit))
    (hne : sendOutcomes ≠ []) :
    multiPostVideoNotification sendOutcomes = expectedResults sendOutcomes 0 ∧
    (multiPostVideoNotification sendOutcomes).length = sendOutcomes.length := by
  have h1 : multiPostVideoNotification sendOutcomes = expectedResults sendOutcomes 0 := by
    unfold multiPostVideoNotification collectSettled
    rw [foldl_settleStep_promises sendOutcomes ([], 0) 0]
    rfl
  rw [h1]
  exact ⟨rfl, expectedResults_length sendOutcomes 0⟩

/-- Witness for C7: one failing and one succeeding endpoint both yield their
own outcome record. -/
theorem multi_webhook_aggregates_witness :
    Discord.multiPostVideoNotification [.error "HTTP 500", .ok ()]
      = Discord.expectedResults [.error "HTTP 500", .ok ()] 0 ∧
    (Discord.multiPostVideoNotification
        [Except.error "HTTP 500", Except.ok ()]).length
      = ([Except.error "HTTP 500", Except.ok ()] : List (Except String Unit)).length :=
  multi_webhook_aggregates [.error "HTTP 500", .ok ()] (List.cons_ne_nil _ _)

/-! ## Claim C6 (send retry policy) -/

namespace Discord

theorem retryDelayFor_429_none (r : Nat) :
    retryDelayFor (.response 429 none) r = baseDelay * 2 ^ r := rfl

theorem retryDelayFor_429_some (ra : Nat) (r : Nat) :
    retryDelayFor (.response 429 (some ra)) r = (ra : Int) * 1000 := rfl

theorem retryDelayFor_err (name : String) (r : Nat) :
    retryDelayFor (.err name) r = baseDelay * 2 ^ r := rfl

theorem retryDelayFor_response_not429 (status : Nat) (ra : Option Nat) (r : Nat)
    (h : status ≠ 429) :
    retryDelayFor (.response status ra) r = baseDelay * 2 ^ r := by
  unfold retryDelayFor
  split
  · rename_i ra' heq
    injection heq with h1 h2
    exact absurd h1 h
  · rfl

/-- When the retry budget is exhausted, one attempt is made and its outcome
is surfaced directly. -/
theorem sendWebhook_eq_stop (oracle : Nat → FetchOutcome) (a r : Nat)
    (hr : ¬ r < maxRetries) :
    sendWebhook oracle a r
      = { result := stopResult (oracle a), delays := [], attempts := 1 } := by
  rw [sendWebhook.eq_def]
  split
  · rename_i status ra heq
    have hstop : stopResult (oracle a) = stopResult (.response status ra) := by rw [heq]
    rw [hstop]
    by_cases h429 : status = 429
    · rw [if_pos h429, if_neg hr]
      subst h429
      simp only [stopResult]
      rw [if_neg (by omega)]
    · rw [if_neg h429]
      by_cases hok : 200 ≤ status ∧ status < 300
      · rw [if_neg (not_not_intro hok)]
        simp only [stopResult]
        rw [if_pos hok]
      · rw [if_pos hok, if_neg hr]
        simp only [stopResult]
        rw [if_neg hok]
  · rename_i name heq
    have hstop : stopResult (oracle a) = stopResult (.err name) := by rw [heq]
    rw [hstop]
    rw [if_neg (fun hc => hr hc.1)]
    rfl

/-- A 2xx response resolves immediately, with no retry. -/
theorem sendWebhook_eq_success (oracle : Nat → FetchOutcome) (a r : Nat)
    (status : Nat) (ra : Option Nat) (hok : 200 ≤ status ∧ status < 300)
    (ho : oracle a = .response status ra) :
    sendWebhook oracle a r
      = { result := stopResult (oracle a), delays := [], attempts := 1 } := by
  have h429 : ¬ status = 429 := by omega
  rw [sendWebhook.eq_def]
  split
  · rename_i status' ra' heq
    have hcomb := ho.symm.trans heq
    injection hcomb with h1 h2
    subst h1
    subst h2
    rw [if_neg h429, if_neg (not_not_intro hok)]
    rw [ho]
    simp only [stopResult]
    rw [if_pos hok]
  · rename_i name heq
    exact FetchOutcome.noConfusion (ho.symm.trans heq)

/-- A cancellation error is surfaced immediately, with no retry. -/
theorem sendWebhook_eq_abort (oracle : Nat → FetchOutcome) (a r : Nat)
    (ho : oracle a = .err "AbortError") :
    sendWebhook oracle a r
      = { result := stopResult (oracle a), delays := [], attempts := 1 } := by
  rw [sendWebhook.eq_def]
  split
  · rename_i status' ra' heq
    exact FetchOutcome.noConfusion (ho.symm.trans heq)
  · rename_i name heq
    have hcomb := ho.symm.trans heq
    injection hcomb with h1
    subst h1
    rw [if_neg (fun hc => hc.2 rfl)]
    rw [ho]
    rfl

/-- A 429 response without a Retry-After header retries with exponential
backoff while the budget lasts. -/
theorem sendWebhook_eq_retry_429_none (oracle : Nat → FetchOutcome) (a r : Nat)
    (hr : r < maxRetries) (ho : oracle a = .response 429 none) :
    sendWebhook oracle a r = retryTrace oracle a r (baseDelay * 2 ^ r) := by
  rw [sendWebhook.eq_def]
  split
  · rename_i status' ra' heq
    have hcomb := ho.symm.trans heq
    injection hcomb with h1 h2
    subst h1
    subst h2
    rw [if_pos rfl, if_pos hr]
    rfl
  · rename_i name heq
    exact FetchOutcome.noConfusion (ho.symm.trans heq)

/-- A 429 response with a Retry-After header retries after the server-given
delay while the budget lasts. -/
theorem sendWebhook_eq_retry_429_some (oracle : Nat → FetchOutcome) (a r : Nat)
    (ra : Nat) (hr : r < maxRetries) (ho : oracle a = .response 429 (some ra)) :
    sendWebhook oracle a r = retryTrace oracle a r ((ra : Int) * 1000) := by
  rw [sendWebhook.eq_def]
  split
  · rename_i status' ra' heq
    have hcomb := ho.symm.trans heq
    injection hcomb with h1 h2
    subst h1
    subst h2
    rw [if_pos rfl, if_pos hr]
    rfl
  · rename_i name heq
    exact FetchOutcome.noConfusion (ho.symm.trans heq)

/-- A non-2xx, non-429 response throws, and the catch block retries it with
exponential backoff while the budget lasts. -/
theorem sendWebhook_eq_retry_nonok (oracle : Nat → FetchOutcome) (a r : Nat)
    (status : Nat) (ra : Option Nat) (hr : r < maxRetries) (h429 : ¬ status = 429)
    (hok : ¬ (200 ≤ status ∧ status < 300)) (ho : oracle a = .response status ra) :
    sendWebhook oracle a r = retryTrace oracle a r (baseDelay * 2 ^ r) := by
  rw [sendWebhook.eq_def]
  split
  · rename_i status' ra' heq
    have hcomb := ho.symm.trans heq
    injection hcomb with h1 h2
    subst h1
    subst h2
    rw [if_neg h429, if_pos hok, if_pos hr]
    rfl
  · rename_i name heq
    exact FetchOutcome.noConfusion (ho.symm.trans heq)

/-- A thrown non-cancellation error retries with exponential backoff while
the budget lasts. -/
theorem sendWebhook_eq_retry_err (oracle : Nat → FetchOutcome) (a r : Nat)
    (name : String) (hr : r < maxRetries) (hab : name ≠ "AbortError")
    (ho : oracle a = .err name) :
    sendWebhook oracle a r = retryTrace oracle a r (baseDelay * 2 ^ r) := by
  rw [sendWebhook.eq_def]
  split
  · rename_i status' ra' heq
    exact FetchOutcome.noConfusion (ho.symm.trans heq)
  · rename_i name' heq
    have hcomb := ho.symm.trans heq
    injection hcomb with h1
    subst h1
    rw [if_pos ⟨hr, hab⟩]
    rfl

/-- The send contract holds whenever the call stops at its first attempt. -/
theorem sendSpec_of_stop (oracle : Nat → FetchOutcome) (a r fuel : Nat)
    (he : sendWebhook oracle a r
      = { result := stopResult (oracle a), delays := [], attempts := 1 }) :
    SendSpec oracle a r fuel := by
  unfold SendSpec
  rw [he]
  refine ⟨le_refl 1, ?_, rfl, ?_, ?_, ?_, ?_⟩
  · show 1 ≤ fuel + 1
    omega
  · intro k hk
    exact absurd hk (by simp)
  · intro k hkk
    have hkk2 : k + 1 < 1 := hkk
    exact absurd hkk2 (by omega)
  · show resultOk (stopResult (oracle a)) = isSuccess (oracle a)
    cases ho : oracle a with
    | response status ra =>
      simp only [stopResult]
      by_cases hok : 200 ≤ status ∧ status < 300
      · rw [if_pos hok]
        unfold isSuccess
        exact (decide_eq_true hok).symm
      · rw [if_neg hok]
        unfold isSuccess
        exact (decide_eq_false hok).symm
    | err name => rfl
  · show oracle a = .err "AbortError" → stopResult (oracle a) = .error "AbortError"
    intro hab
    rw [hab]
    rfl

/-- The send contract is preserved by one retry step. -/
theorem sendSpec_of_retry (oracle : Nat → FetchOutcome) (a r fuel : Nat) (d : Int)
    (hspec : SendSpec oracle (a + 1) (r + 1) fuel)
    (he : sendWebhook oracle a r = retryTrace oracle a r d)
    (hd : d = retryDelayFor (oracle a) r)
    (hfail : isSuccess (oracle a) = false)
    (habort : oracle a ≠ .err "AbortError") :
    SendSpec oracle a r (fuel + 1) := by
  unfold SendSpec at hspec ⊢
  obtain ⟨h1, h2, h3, h4, h5, h6, h7⟩ := hspec
  rw [he]
  unfold retryTrace
  refine ⟨?_, ?_, ?_, ?_, ?_, ?_, ?_⟩
  · show 1 ≤ (sendWebhook oracle (a + 1) (r + 1)).attempts + 1
    omega
  · show (sendWebhook oracle (a + 1) (r + 1)).attempts + 1 ≤ fuel + 1 + 1
    omega
  · show (sendWebhook oracle (a + 1) (r + 1)).delays.length + 1
      = (sendWebhook oracle (a + 1) (r + 1)).attempts + 1 - 1
    omega
  · intro k hk
    cases k with
    | zero => exact hd
    | succ k =>
      have hk' : k < (sendWebhook oracle (a + 1) (r + 1)).delays.length := by
        have hk2 : k + 1 < (sendWebhook oracle (a + 1) (r + 1)).delays.length + 1 := hk
        omega
      have h := h4 k hk'
      show (sendWebhook oracle (a + 1) (r + 1)).delays.get ⟨k, hk'⟩
        = retryDelayFor (oracle (a + (k + 1))) (r + (k + 1))
      rw [h, show a + 1 + k = a + (k + 1) from by omega,
        show r + 1 + k = r + (k + 1) from by omega]
  · intro k hkk
    cases k with
    | zero => exact ⟨hfail, habort⟩
    | succ k =>
      have hkk' : k + 1 < (sendWebhook oracle (a + 1) (r + 1)).attempts := by
        have hkk2 : k + 1 + 1 < (sendWebhook oracle (a + 1) (r + 1)).attempts + 1 := hkk
        omega
      have h := h5 k hkk'
      rw [show a + (k + 1) = a + 1 + k from by omega]
      exact h
  · show resultOk (sendWebhook oracle (a + 1) (r + 1)).result
      = isSuccess (oracle (a + ((sendWebhook oracle (a + 1) (r + 1)).attempts + 1 - 1)))
    rw [show a + ((sendWebhook oracle (a + 1) (r + 1)).attempts + 1 - 1)
      = a + 1 + ((sendWebhook oracle (a + 1) (r + 1)).attempts - 1) from by omega]
    exact h6
  · intro hab
    have hab' : oracle (a + 1 + ((sendWebhook oracle (a + 1) (r + 1)).attempts - 1))
        = .err "AbortError" := by
      rw [show a + 1 + ((sendWebhook oracle (a + 1) (r + 1)).attempts - 1)
        = a + ((sendWebhook oracle (a + 1) (r + 1)).attempts + 1 - 1) from by omega]
      exact hab
    exact h7 hab'

/-- The send contract, by induction on the remaining retry budget. -/
theorem sendWebhook_spec_aux (fuel : Nat) :
    ∀ (oracle : Nat → FetchOutcome) (a r : Nat),
      maxRetries ≤ r + fuel → SendSpec oracle a r fuel := by
  induction fuel with
  | zero =>
    intro oracle a r hm
    exact sendSpec_of_stop oracle a r 0 (sendWebhook_eq_stop oracle a r (by omega))
  | succ fuel ih =>
    intro oracle a r hm
    by_cases hr : r < maxRetries
    · rcases ho : oracle a with ⟨status, ra⟩ | ⟨name⟩
      · by_cases hok : 200 ≤ status ∧ status < 300
        · exact sendSpec_of_stop oracle a r (fuel + 1)
            (sendWebhook_eq_success oracle a r status ra hok ho)
        · have hfail : isSuccess (oracle a) = false := by
            rw [ho]
            unfold isSuccess
            exact decide_eq_false hok
          have hab : oracle a ≠ .err "AbortError" := by
            rw [ho]
            exact fun hc => FetchOutcome.noConfusion hc
          have hspec := ih oracle (a + 1) (r + 1) (by omega)
          by_cases h429 : status = 429
          · subst h429
            cases ra with
            | none =>
              refine sendSpec_of_retry oracle a r fuel (baseDelay * 2 ^ r) hspec
                (sendWebhook_eq_retry_429_none oracle a r hr ho) ?_ hfail hab
              rw [ho, retryDelayFor_429_none]
            | some ranum =>
              refine sendSpec_of_retry oracle a r fuel ((ranum : Int) * 1000) hspec
                (sendWebhook_eq_retry_429_some oracle a r ranum hr ho) ?_ hfail hab
              rw [ho, retryDelayFor_429_some]
          · refine sendSpec_of_retry oracle a r fuel (baseDelay * 2 ^ r) hspec
              (sendWebhook_eq_retry_nonok oracle a r status ra hr h429 hok ho) ?_ hfail hab
            rw [ho, retryDelayFor_response_not429 status ra r h429]
      · by_cases habn : name = "AbortError"
        · subst habn
          exact sendSpec_of_stop oracle a r (fuel + 1) (sendWebhook_eq_abort oracle a r ho)
        · have hfail : isSuccess (oracle a) = false := by
            rw [ho]
            rfl
          have hab : oracle a ≠ .err "AbortError" := by
            rw [ho]
            intro hc
            injection hc with h1
            exact habn h1
          have hspec := ih oracle (a + 1) (r + 1) (by omega)
          refine sendSpec_of_retry oracle a r fuel (baseDelay * 2 ^ r) hspec
            (sendWebhook_eq_retry_err oracle a r name hr habn ho) ?_ hfail hab
          rw [ho, retryDelayFor_err]
    · exact sendSpec_of_stop oracle a r (fuel + 1) (sendWebhook_eq_stop oracle a r hr)

end Discord

open Discord in
/-- C6: for every sequence of attempt outcomes, `_sendWebhook` makes at most
`maxRetries + 1 = 4` attempts; the delay slept before retry `k` is the
server's Retry-After (seconds times 1000) for a 429 response carrying one and
`1000 · 2 ^ k` otherwise; every retried attempt was a failure that was not a
cancellation; a cancellation (`AbortError`) at the final attempt is surfaced
immediately without retry; and the final result is a success exactly when the
final attempt was a 2xx response, the error being surfaced to the caller
otherwise. -/
theorem send_webhook_retry_policy (oracle : Nat → FetchOutcome) :
    1 ≤ (sendWebhook oracle 0 0).attempts ∧
    (sendWebhook oracle 0 0).attempts ≤ maxRetries + 1 ∧
    (sendWebhook oracle 0 0).delays.length = (sendWebhook oracle 0 0).attempts - 1 ∧
    (∀ (k : Nat) (hk : k < (sendWebhook oracle 0 0).delays.length),
      (sendWebhook oracle 0 0).delays.get ⟨k, hk⟩ = retryDelayFor (oracle k) k) ∧
    (∀ k : Nat, k + 1 < (sendWebhook oracle 0 0).attempts →
      isSuccess (oracle k) = false ∧ oracle k ≠ .err "AbortError") ∧
    (resultOk (sendWebhook oracle 0 0).result
      = isSuccess (oracle ((sendWebhook oracle 0 0).attempts - 1))) ∧
    (oracle ((sendWebhook oracle 0 0).attempts - 1) = .err "AbortError" →
      (sendWebhook oracle 0 0).result = .error "AbortError") := by
  have h := sendWebhook_spec_aux 3 oracle 0 0 (by decide)
  unfold SendSpec at h
  obtain ⟨h1, h2, h3, h4, h5, h6, h7⟩ := h
  refine ⟨h1, h2, h3, ?_, ?_, ?_, ?_⟩
  · intro k hk
    have h := h4 k hk
    simpa using h
  · intro k hkk
    have h := h5 k hkk
    simpa using h
  · simpa using h6
  · intro hab
    exact h7 (by simpa using hab)

end EchoTube
